import Mathlib

/-!
Shallow embedding of the OpenCog AtomSpace core of this repository
(`ggml-opencog.h` / its implementation file): fixed-capacity atom table
with outgoing/incoming adjacency, PLN truth-value combinators, ECAN
attention decay and spreading, and inheritance inference.

Modelling conventions:
* C `float` arithmetic is embedded as exact rational (`ℚ`) arithmetic;
  in `ℚ`, division by zero yields 0 where C floats would produce NaN/Inf.
* `uint64_t` ids and counters are embedded as `ℕ` (the code never gets
  near 2^64: capacity is 2048 and ids only increment).
* The atom table is a `List Atom` in insertion order; `atom_count` is the
  list length.  `tensor_encoding`, `creation_time`, `last_access` and the
  cogfluence back-reference are not represented: no modelled operation
  reads them (the `last_access` touch performed by `opencog_get_atom` is
  invisible to every property below).
* C `const char* name` is embedded as `String`; the C NULL pointer has no
  counterpart, so the `!name` guard of `opencog_add_node` is always
  passed in the model.  The `strncpy` truncation to
  `OPENCOG_MAX_ATOM_NAME - 1 = 255` characters is kept.
-/

namespace Coggml

/-- The `opencog_atom_type_t` enum of `ggml-opencog.h`. -/
inductive AtomType where
  | concept
  | predicate
  | variableNode
  | inheritance
  | evaluation
  | implication
  | similarity
  | member
deriving DecidableEq, Repr

/-- `opencog_truth_value_t`: (strength, confidence, count). -/
structure TruthValue where
  strength : ℚ
  confidence : ℚ
  count : ℚ
deriving DecidableEq, Repr

/-- `opencog_attention_value_t`: (sti, lti, vlti). -/
structure AttentionValue where
  sti : ℚ
  lti : ℚ
  vlti : ℚ
deriving DecidableEq, Repr

/-- `opencog_atom_t` (tensor encoding and timestamps omitted, see header
comment). -/
structure Atom where
  atom_id : ℕ
  name : String
  type : AtomType
  truth_value : TruthValue
  attention_value : AttentionValue
  outgoing : List ℕ
  incoming : List ℕ
  is_deleted : Bool
deriving DecidableEq, Repr

/-- `opencog_atomspace_t` (the ggml context and cogfluence pointer are
omitted; `atom_count` is `atoms.length`). -/
structure Atomspace where
  atoms : List Atom
  atom_capacity : ℕ
  next_atom_id : ℕ
  attention_decay_rate : ℚ
  attention_threshold : ℚ
  importance_diffusion_rate : ℚ
  default_strength : ℚ
  default_confidence : ℚ
  total_inferences : ℕ
  successful_inferences : ℕ
  reasoning_accuracy : ℚ
deriving DecidableEq, Repr

/-- `fminf` on rationals (on non-NaN floats `fminf` returns the smaller
argument; NaN has no counterpart in `ℚ`). -/
def rmin (x y : ℚ) : ℚ := if x ≤ y then x else y

/-- `fmaxf` on rationals. -/
def rmax (x y : ℚ) : ℚ := if x ≤ y then y else x

/-- `fmaxf (0, fminf (1, x))` as used by the setters and the ECAN clamp. -/
def clamp01 (x : ℚ) : ℚ := rmax 0 (rmin 1 x)

/-- `fmaxf (-1, fminf (1, x))` as used for the sti field. -/
def clampSTI (x : ℚ) : ℚ := rmax (-1) (rmin 1 x)

/-- The linear search of `opencog_get_atom`: first atom in insertion order
with the given id that is not soft-deleted. -/
def find_live : List Atom → ℕ → Option Atom
  | [], _ => none
  | atm :: rest, i =>
    if atm.atom_id = i ∧ atm.is_deleted = false then some atm
    else find_live rest i

/-- Mutation through the pointer returned by the linear search: applies
`f` to the first live atom with the given id, leaving everything else in
place. -/
def update_live : List Atom → ℕ → (Atom → Atom) → List Atom
  | [], _, _ => []
  | atm :: rest, i, f =>
    if atm.atom_id = i ∧ atm.is_deleted = false then f atm :: rest
    else atm :: update_live rest i f

/-- `opencog_get_atom`: NULL for id 0 (the failure sentinel), otherwise
the first live atom with that id. -/
def opencog_get_atom (a : Atomspace) (atom_id : ℕ) : Option Atom :=
  if atom_id = 0 then none else find_live a.atoms atom_id

/-- One `opencog_get_atom`-guarded in-place mutation (as the C code does
with the returned pointer). -/
def modify_atom (atoms : List Atom) (i : ℕ) (f : Atom → Atom) : List Atom :=
  if i = 0 then atoms else update_live atoms i f

/-- `opencog_atomspace_init` (sans I/O): empty table of capacity
`OPENCOG_MAX_ATOMS = 2048`, id counter at 1, ECAN and PLN parameters at
their defaults. -/
def opencog_atomspace_init : Atomspace where
  atoms := []
  atom_capacity := 2048
  next_atom_id := 1
  attention_decay_rate := 19/20
  attention_threshold := 1/10
  importance_diffusion_rate := 1/10
  default_strength := 4/5
  default_confidence := 9/10
  total_inferences := 0
  successful_inferences := 0
  reasoning_accuracy := 0

/-- `opencog_add_node`.  Fails (sentinel 0, state unchanged) only when the
table is at capacity: the C guard `!name` checks for a NULL pointer, which
has no counterpart for Lean strings, and does not reject the empty
string. -/
def opencog_add_node (a : Atomspace) (ty : AtomType) (name : String) :
    Atomspace × ℕ :=
  if a.atom_capacity ≤ a.atoms.length then (a, 0)
  else
    let atom_id := a.next_atom_id
    let atom : Atom :=
      { atom_id := atom_id
        name := name.take 255
        type := ty
        truth_value :=
          { strength := a.default_strength
            confidence := a.default_confidence
            count := 1 }
        attention_value := { sti := 0, lti := 0, vlti := 0 }
        outgoing := []
        incoming := []
        is_deleted := false }
    ({ a with atoms := a.atoms ++ [atom], next_atom_id := atom_id + 1 },
     atom_id)

/-- The loop at the end of `opencog_add_link`: for each outgoing id in
order, append the new link id to the incoming list of the (first live)
referenced atom. -/
def add_incoming_links (atoms : List Atom) (lid : ℕ) : List ℕ → List Atom
  | [] => atoms
  | t :: ts =>
    add_incoming_links
      (modify_atom atoms t
        (fun atm => { atm with incoming := atm.incoming ++ [lid] }))
      lid ts

/-- `opencog_add_link`.  Fails (sentinel 0, state unchanged) on an empty
outgoing list, a full table, or any outgoing id that does not resolve to
a live atom; on success the new link is appended after the incoming
lists of the referenced atoms have been extended. -/
def opencog_add_link (a : Atomspace) (ty : AtomType) (outgoing : List ℕ) :
    Atomspace × ℕ :=
  if outgoing.length = 0 ∨ a.atom_capacity ≤ a.atoms.length then (a, 0)
  else if outgoing.any (fun t => (opencog_get_atom a t).isNone) then (a, 0)
  else
    let atom_id := a.next_atom_id
    let link : Atom :=
      { atom_id := atom_id
        name := "Link_" ++ toString atom_id
        type := ty
        truth_value :=
          { strength := a.default_strength
            confidence := a.default_confidence
            count := 1 }
        attention_value := { sti := 0, lti := 0, vlti := 0 }
        outgoing := outgoing
        incoming := []
        is_deleted := false }
    let atoms1 := add_incoming_links a.atoms atom_id outgoing
    ({ a with atoms := atoms1 ++ [link], next_atom_id := atom_id + 1 },
     atom_id)

/-- The link atom record constructed by `opencog_add_link` on its
success path (named for reuse in the theorems below). -/
def link_record (a : Atomspace) (ty : AtomType) (outgoing : List ℕ) : Atom where
  atom_id := a.next_atom_id
  name := "Link_" ++ toString a.next_atom_id
  type := ty
  truth_value :=
    { strength := a.default_strength
      confidence := a.default_confidence
      count := 1 }
  attention_value := { sti := 0, lti := 0, vlti := 0 }
  outgoing := outgoing
  incoming := []
  is_deleted := false

/-- `opencog_pln_and`: min-strength, the PLN confidence combination, and
min-count.  The source performs no clamping and no denominator guard:
when both confidences are 0 the C float computes `0.0f/0.0f = NaN`,
which this total `ℚ` division renders as 0 (see
`pln_conf_denominator_zero`). -/
def opencog_pln_and (tv1 tv2 : TruthValue) : TruthValue where
  strength := rmin tv1.strength tv2.strength
  confidence := tv1.confidence * tv2.confidence /
    (tv1.confidence + tv2.confidence - tv1.confidence * tv2.confidence)
  count := rmin tv1.count tv2.count

/-- `opencog_pln_or`: max-strength, the same unguarded confidence
combination (NaN in C when both confidences are 0, 0 here), and
max-count. -/
def opencog_pln_or (tv1 tv2 : TruthValue) : TruthValue where
  strength := rmax tv1.strength tv2.strength
  confidence := tv1.confidence * tv2.confidence /
    (tv1.confidence + tv2.confidence - tv1.confidence * tv2.confidence)
  count := rmax tv1.count tv2.count

/-- `opencog_pln_not`: strength `1 - s`, confidence and count unchanged.
The subtraction is exact here; the C float rounds it (for strengths
below the float epsilon, `1.0f - s` rounds to `1.0f`). -/
def opencog_pln_not (tv : TruthValue) : TruthValue where
  strength := 1 - tv.strength
  confidence := tv.confidence
  count := tv.count

/-- `opencog_set_truth_value`: no-op on an unresolvable id; otherwise
stores the clamped strength and confidence and resets count to 1. -/
def opencog_set_truth_value (a : Atomspace) (atom_id : ℕ)
    (strength confidence : ℚ) : Atomspace :=
  match opencog_get_atom a atom_id with
  | none => a
  | some _ =>
    { a with
      atoms := modify_atom a.atoms atom_id (fun atm =>
        { atm with truth_value :=
          { strength := clamp01 strength
            confidence := clamp01 confidence
            count := 1 } }) }

/-- `opencog_get_truth_value`: all-zero default for an unresolvable id. -/
def opencog_get_truth_value (a : Atomspace) (atom_id : ℕ) : TruthValue :=
  match opencog_get_atom a atom_id with
  | none => { strength := 0, confidence := 0, count := 0 }
  | some atm => atm.truth_value

/-- `opencog_set_attention_value`: clamps sti to `[-1,1]` and lti, vlti
to `[0,1]`. -/
def opencog_set_attention_value (a : Atomspace) (atom_id : ℕ)
    (sti lti vlti : ℚ) : Atomspace :=
  match opencog_get_atom a atom_id with
  | none => a
  | some _ =>
    { a with
      atoms := modify_atom a.atoms atom_id (fun atm =>
        { atm with attention_value :=
          { sti := clampSTI sti
            lti := clamp01 lti
            vlti := clamp01 vlti } }) }

/-- `opencog_get_attention_value`. -/
def opencog_get_attention_value (a : Atomspace) (atom_id : ℕ) :
    AttentionValue :=
  match opencog_get_atom a atom_id with
  | none => { sti := 0, lti := 0, vlti := 0 }
  | some atm => atm.attention_value

/-- The per-atom body of `opencog_update_attention_values`: decay sti and
lti, transfer 10% of post-decay sti into lti when it exceeds the
threshold, then clamp all three fields.  Deleted atoms are skipped. -/
def decay_atom (decay_rate threshold : ℚ) (atm : Atom) : Atom :=
  if atm.is_deleted = true then atm
  else
    let sti1 := atm.attention_value.sti * decay_rate
    let lti1 := atm.attention_value.lti * decay_rate
    let sti2 := if threshold < sti1 then sti1 - sti1 * (1/10) else sti1
    let lti2 := if threshold < sti1 then lti1 + sti1 * (1/10) else lti1
    { atm with attention_value :=
      { sti := clampSTI sti2
        lti := clamp01 lti2
        vlti := clamp01 atm.attention_value.vlti } }

/-- `opencog_update_attention_values` (the ECAN decay tick): applies
`decay_atom` to every atom of the table. -/
def opencog_update_attention_values (a : Atomspace) : Atomspace :=
  { a with
    atoms := a.atoms.map
      (decay_atom a.attention_decay_rate a.attention_threshold) }

/-- The inner loops of `opencog_spread_attention`: add `amt` to the sti of
each (first live) target atom, clamping to `[-1,1]` after each addition. -/
def spread_to_targets (atoms : List Atom) (amt : ℚ) : List ℕ → List Atom
  | [] => atoms
  | t :: ts =>
    spread_to_targets
      (modify_atom atoms t (fun atm =>
        { atm with attention_value :=
          { atm.attention_value with
            sti := clampSTI (atm.attention_value.sti + amt) } }))
      amt ts

/-- `opencog_spread_attention`: no-op on an unresolvable source id;
otherwise distributes `amount / |outgoing|` over the outgoing targets
and, independently, `amount / |incoming|` over the incoming targets. -/
def opencog_spread_attention (a : Atomspace) (source_atom_id : ℕ)
    (amount : ℚ) : Atomspace :=
  match opencog_get_atom a source_atom_id with
  | none => a
  | some src =>
    let atoms1 :=
      if 0 < src.outgoing.length then
        spread_to_targets a.atoms (amount / src.outgoing.length) src.outgoing
      else a.atoms
    let atoms2 :=
      if 0 < src.incoming.length then
        spread_to_targets atoms1 (amount / src.incoming.length) src.incoming
      else atoms1
    { a with atoms := atoms2 }

/-- The premise scan of `opencog_infer_inheritance`: over all live
Inheritance links with at least two outgoing entries, record the id of a
link whose first two outgoing entries are `[ca, cb]` (first component)
resp. `[cb, cc]` (second component); each later match overwrites the
earlier one. -/
def scan_step (ca cb cc : ℕ) (acc : ℕ × ℕ) (atm : Atom) : ℕ × ℕ :=
  if atm.is_deleted = false ∧ atm.type = AtomType.inheritance ∧
      2 ≤ atm.outgoing.length then
    let ab :=
      if atm.outgoing.get? 0 = some ca ∧ atm.outgoing.get? 1 = some cb
      then atm.atom_id else acc.1
    let bc :=
      if atm.outgoing.get? 0 = some cb ∧ atm.outgoing.get? 1 = some cc
      then atm.atom_id else acc.2
    (ab, bc)
  else acc

/-- The full premise scan (single pass over the table, as in the C loop). -/
def scan_premises (atoms : List Atom) (ca cb cc : ℕ) : ℕ × ℕ :=
  atoms.foldl (scan_step ca cb cc) (0, 0)

/-- `opencog_infer_inheritance`: find premise links `[ca,cb]` and
`[cb,cc]`; if either is missing, return false with the state untouched;
otherwise deduce the truth value, create a new `[ca,cc]` Inheritance
link, set its truth value, and update the inference counters. -/
def opencog_infer_inheritance (a : Atomspace) (ca cb cc : ℕ) :
    Atomspace × Bool :=
  let s := scan_premises a.atoms ca cb cc
  if s.1 = 0 ∨ s.2 = 0 then (a, false)
  else
    let tv_ab := opencog_get_truth_value a s.1
    let tv_bc := opencog_get_truth_value a s.2
    let res_strength := tv_ab.strength * tv_bc.strength
    let res_confidence := tv_ab.confidence * tv_bc.confidence /
      (tv_ab.confidence + tv_bc.confidence -
        tv_ab.confidence * tv_bc.confidence)
    let r := opencog_add_link a AtomType.inheritance [ca, cc]
    if r.2 ≠ 0 then
      let a2 := opencog_set_truth_value r.1 r.2 res_strength res_confidence
      let total := a2.total_inferences + 1
      let succ := a2.successful_inferences + 1
      ({ a2 with
          total_inferences := total
          successful_inferences := succ
          reasoning_accuracy := (succ : ℚ) / (total : ℚ) }, true)
    else
      ({ a with total_inferences := a.total_inferences + 1 }, false)

/-- `opencog_query_outgoing`: the outgoing id sequence of the (first
live) atom with the given id; empty for an unresolvable id (the C code
returns NULL with count 0 both then and for an empty outgoing list). -/
def opencog_query_outgoing (a : Atomspace) (atom_id : ℕ) : List ℕ :=
  match opencog_get_atom a atom_id with
  | none => []
  | some atm => atm.outgoing

/-- `opencog_query_incoming`: the incoming id sequence, analogously. -/
def opencog_query_incoming (a : Atomspace) (atom_id : ℕ) : List ℕ :=
  match opencog_get_atom a atom_id with
  | none => []
  | some atm => atm.incoming

/-! ## Basic lemmas about the linear search and in-place update -/

theorem find_live_mem {xs : List Atom} {i : ℕ} {x : Atom}
    (h : find_live xs i = some x) :
    x ∈ xs ∧ x.atom_id = i ∧ x.is_deleted = false := by
  induction xs with
  | nil => simp [find_live] at h
  | cons atm rest ih =>
    by_cases hc : atm.atom_id = i ∧ atm.is_deleted = false
    · simp [find_live, hc] at h
      subst h
      exact ⟨List.mem_cons_self _ _, hc⟩
    · simp [find_live, hc] at h
      rcases ih h with ⟨hmem, hrest⟩
      exact ⟨List.mem_cons_of_mem _ hmem, hrest⟩

theorem find_live_eq_none {xs : List Atom} {i : ℕ}
    (h : ∀ atm ∈ xs, atm.atom_id ≠ i) : find_live xs i = none := by
  induction xs with
  | nil => rfl
  | cons atm rest ih =>
    have hne : ¬(atm.atom_id = i ∧ atm.is_deleted = false) := by
      intro hc
      exact h atm (List.mem_cons_self _ _) hc.1
    simp [find_live, hne]
    exact ih (fun y hy => h y (List.mem_cons_of_mem _ hy))

theorem find_live_append_of_none {xs ys : List Atom} {i : ℕ}
    (h : find_live xs i = none) :
    find_live (xs ++ ys) i = find_live ys i := by
  induction xs with
  | nil => rfl
  | cons atm rest ih =>
    by_cases hc : atm.atom_id = i ∧ atm.is_deleted = false
    · simp [find_live, hc] at h
    · simp [find_live, hc] at h ⊢
      exact ih h

theorem find_live_append_of_some {xs ys : List Atom} {i : ℕ} {x : Atom}
    (h : find_live xs i = some x) :
    find_live (xs ++ ys) i = some x := by
  induction xs with
  | nil => simp [find_live] at h
  | cons atm rest ih =>
    by_cases hc : atm.atom_id = i ∧ atm.is_deleted = false
    · simp [find_live, hc] at h ⊢
      exact h
    · simp [find_live, hc] at h ⊢
      exact ih h

theorem find_live_update_ne {xs : List Atom} {i j : ℕ} {f : Atom → Atom}
    (hid : ∀ atm, (f atm).atom_id = atm.atom_id)
    (hdel : ∀ atm, (f atm).is_deleted = atm.is_deleted)
    (hne : j ≠ i) :
    find_live (update_live xs i f) j = find_live xs j := by
  induction xs with
  | nil => rfl
  | cons atm rest ih =>
    by_cases hc : atm.atom_id = i ∧ atm.is_deleted = false
    · have hfa : ¬((f atm).atom_id = j ∧ (f atm).is_deleted = false) := by
        rw [hid, hdel]
        intro hj
        exact hne (by rw [← hj.1, hc.1])
      have ha : ¬(atm.atom_id = j ∧ atm.is_deleted = false) := by
        intro hj
        exact hne (by rw [← hj.1, hc.1])
      rw [update_live, if_pos hc, find_live, if_neg hfa, find_live, if_neg ha]
    · rw [update_live, if_neg hc, find_live, find_live]
      by_cases hj : atm.atom_id = j ∧ atm.is_deleted = false
      · rw [if_pos hj, if_pos hj]
      · rw [if_neg hj, if_neg hj]
        exact ih

theorem find_live_update_eq {xs : List Atom} {i : ℕ} {f : Atom → Atom} {x : Atom}
    (hid : ∀ atm, (f atm).atom_id = atm.atom_id)
    (hdel : ∀ atm, (f atm).is_deleted = atm.is_deleted)
    (h : find_live xs i = some x) :
    find_live (update_live xs i f) i = some (f x) := by
  induction xs with
  | nil => simp [find_live] at h
  | cons atm rest ih =>
    by_cases hc : atm.atom_id = i ∧ atm.is_deleted = false
    · simp [find_live, hc] at h
      subst h
      have hfa : (f atm).atom_id = i ∧ (f atm).is_deleted = false := by
        rw [hid, hdel]
        exact hc
      simp [update_live, hc, find_live, hfa]
    · simp [find_live, hc] at h
      simp [update_live, hc, find_live, hc]
      exact ih h

theorem mem_update_live {xs : List Atom} {i : ℕ} {f : Atom → Atom} {y : Atom}
    (h : y ∈ update_live xs i f) :
    y ∈ xs ∨ ∃ x ∈ xs, y = f x := by
  induction xs with
  | nil => simp [update_live] at h
  | cons atm rest ih =>
    by_cases hc : atm.atom_id = i ∧ atm.is_deleted = false
    · simp [update_live, hc] at h
      rcases h with h | h
      · exact Or.inr ⟨atm, List.mem_cons_self _ _, h⟩
      · exact Or.inl (List.mem_cons_of_mem _ h)
    · simp [update_live, hc] at h
      rcases h with h | h
      · exact Or.inl (h ▸ List.mem_cons_self _ _)
      · rcases ih h with h2 | ⟨x, hx, hfx⟩
        · exact Or.inl (List.mem_cons_of_mem _ h2)
        · exact Or.inr ⟨x, List.mem_cons_of_mem _ hx, hfx⟩

theorem update_live_append_of_none {xs ys : List Atom} {i : ℕ} {f : Atom → Atom}
    (h : find_live xs i = none) :
    update_live (xs ++ ys) i f = xs ++ update_live ys i f := by
  induction xs with
  | nil => rfl
  | cons atm rest ih =>
    by_cases hc : atm.atom_id = i ∧ atm.is_deleted = false
    · simp [find_live, hc] at h
    · simp [find_live, hc] at h
      simp [update_live, hc]
      exact ih h

/-! ## Lemmas about the guarded mutation and the adjacency/spread loops -/

theorem find_live_modify_ne {xs : List Atom} {i j : ℕ} {f : Atom → Atom}
    (hid : ∀ atm, (f atm).atom_id = atm.atom_id)
    (hdel : ∀ atm, (f atm).is_deleted = atm.is_deleted)
    (hne : j ≠ i) :
    find_live (modify_atom xs i f) j = find_live xs j := by
  unfold modify_atom
  by_cases h0 : i = 0
  · rw [if_pos h0]
  · rw [if_neg h0]
    exact find_live_update_ne hid hdel hne

theorem find_live_modify_eq {xs : List Atom} {i : ℕ} {f : Atom → Atom} {x : Atom}
    (hid : ∀ atm, (f atm).atom_id = atm.atom_id)
    (hdel : ∀ atm, (f atm).is_deleted = atm.is_deleted)
    (h0 : i ≠ 0)
    (h : find_live xs i = some x) :
    find_live (modify_atom xs i f) i = some (f x) := by
  unfold modify_atom
  rw [if_neg h0]
  exact find_live_update_eq hid hdel h

theorem mem_modify_atom {xs : List Atom} {i : ℕ} {f : Atom → Atom} {y : Atom}
    (h : y ∈ modify_atom xs i f) :
    y ∈ xs ∨ ∃ x ∈ xs, y = f x := by
  unfold modify_atom at h
  by_cases h0 : i = 0
  · rw [if_pos h0] at h
    exact Or.inl h
  · rw [if_neg h0] at h
    exact mem_update_live h

/-- The incoming-append step of `opencog_add_link` preserves atom ids. -/
theorem incoming_step_id (lid : ℕ) (atm : Atom) :
    ({ atm with incoming := atm.incoming ++ [lid] } : Atom).atom_id =
      atm.atom_id := rfl

/-- The incoming-append step preserves the soft-delete flag. -/
theorem incoming_step_del (lid : ℕ) (atm : Atom) :
    ({ atm with incoming := atm.incoming ++ [lid] } : Atom).is_deleted =
      atm.is_deleted := rfl

theorem mem_add_incoming_links {ts : List ℕ} {xs : List Atom} {lid : ℕ}
    {y : Atom} (h : y ∈ add_incoming_links xs lid ts) :
    ∃ x ∈ xs, y.atom_id = x.atom_id ∧ y.is_deleted = x.is_deleted := by
  induction ts generalizing xs with
  | nil => exact ⟨y, h, rfl, rfl⟩
  | cons t ts ih =>
    rw [add_incoming_links] at h
    rcases ih h with ⟨x, hx, hids⟩
    rcases mem_modify_atom hx with hx2 | ⟨x2, hx2, hfx⟩
    · exact ⟨x, hx2, hids⟩
    · exact ⟨x2, hx2, by rw [hids.1, hfx, incoming_step_id],
        by rw [hids.2, hfx, incoming_step_del]⟩

theorem find_live_add_incoming_ne {ts : List ℕ} {xs : List Atom} {lid j : ℕ}
    (hj : j ∉ ts) :
    find_live (add_incoming_links xs lid ts) j = find_live xs j := by
  induction ts generalizing xs with
  | nil => rfl
  | cons t ts ih =>
    rw [add_incoming_links]
    have hjt : j ≠ t := fun h => hj (h ▸ List.mem_cons_self t ts)
    rw [ih (fun h => hj (List.mem_cons_of_mem t h))]
    exact find_live_modify_ne (incoming_step_id lid) (incoming_step_del lid) hjt

theorem find_live_add_incoming_keeps {ts : List ℕ} {xs : List Atom}
    {lid j : ℕ} {y : Atom}
    (hy : find_live xs j = some y) (hmem : lid ∈ y.incoming) :
    ∃ z, find_live (add_incoming_links xs lid ts) j = some z ∧
      lid ∈ z.incoming := by
  induction ts generalizing xs y with
  | nil => exact ⟨y, hy, hmem⟩
  | cons t ts ih =>
    rw [add_incoming_links]
    by_cases hjt : j = t
    · subst hjt
      by_cases h0 : j = 0
      · subst h0
        rw [modify_atom, if_pos rfl]
        exact ih hy hmem
      · have h2 := find_live_modify_eq (f := fun atm =>
          { atm with incoming := atm.incoming ++ [lid] })
          (incoming_step_id lid) (incoming_step_del lid) h0 hy
        exact ih h2 (List.mem_append_left _ hmem)
    · have h2 : find_live (modify_atom xs t (fun atm =>
          { atm with incoming := atm.incoming ++ [lid] })) j = some y := by
        rw [find_live_modify_ne (incoming_step_id lid)
          (incoming_step_del lid) hjt]
        exact hy
      exact ih h2 hmem

theorem find_live_add_incoming_adds {ts : List ℕ} {xs : List Atom}
    {lid j : ℕ} {y : Atom}
    (hj : j ∈ ts) (h0 : j ≠ 0) (hy : find_live xs j = some y) :
    ∃ z, find_live (add_incoming_links xs lid ts) j = some z ∧
      lid ∈ z.incoming := by
  induction ts generalizing xs y with
  | nil => simp at hj
  | cons t ts ih =>
    rw [add_incoming_links]
    by_cases hjt : j = t
    · subst hjt
      have h2 := find_live_modify_eq (f := fun atm =>
        { atm with incoming := atm.incoming ++ [lid] })
        (incoming_step_id lid) (incoming_step_del lid) h0 hy
      exact find_live_add_incoming_keeps h2
        (List.mem_append_right _ (List.mem_singleton_self lid))
    · have hjts : j ∈ ts := by
        rcases List.mem_cons.mp hj with h | h
        · exact absurd h hjt
        · exact h
      have h2 : find_live (modify_atom xs t (fun atm =>
          { atm with incoming := atm.incoming ++ [lid] })) j = some y := by
        rw [find_live_modify_ne (incoming_step_id lid)
          (incoming_step_del lid) hjt]
        exact hy
      exact ih hjts h2

/-- The sti-bump step of `opencog_spread_attention` preserves atom ids. -/
theorem spread_step_id (amt : ℚ) (atm : Atom) :
    ({ atm with attention_value :=
      { atm.attention_value with
        sti := clampSTI (atm.attention_value.sti + amt) } } : Atom).atom_id =
      atm.atom_id := rfl

/-- The sti-bump step preserves the soft-delete flag. -/
theorem spread_step_del (amt : ℚ) (atm : Atom) :
    ({ atm with attention_value :=
      { atm.attention_value with
        sti := clampSTI (atm.attention_value.sti + amt) } } : Atom).is_deleted =
      atm.is_deleted := rfl

theorem find_live_spread_ne {ts : List ℕ} {xs : List Atom} {amt : ℚ} {j : ℕ}
    (hj : j ∉ ts) :
    find_live (spread_to_targets xs amt ts) j = find_live xs j := by
  induction ts generalizing xs with
  | nil => rfl
  | cons t ts ih =>
    rw [spread_to_targets]
    have hjt : j ≠ t := fun h => hj (h ▸ List.mem_cons_self t ts)
    rw [ih (fun h => hj (List.mem_cons_of_mem t h))]
    exact find_live_modify_ne (spread_step_id amt) (spread_step_del amt) hjt


/-! ## Characterization of the operations on their success paths -/

/-- The truth-setter step of `opencog_set_truth_value` preserves atom ids. -/
theorem truth_step_id (s c : ℚ) (atm : Atom) :
    ({ atm with truth_value :=
      { strength := clamp01 s, confidence := clamp01 c,
        count := 1 } } : Atom).atom_id = atm.atom_id := rfl

/-- The truth-setter step preserves the soft-delete flag. -/
theorem truth_step_del (s c : ℚ) (atm : Atom) :
    ({ atm with truth_value :=
      { strength := clamp01 s, confidence := clamp01 c,
        count := 1 } } : Atom).is_deleted = atm.is_deleted := rfl

theorem set_truth_value_atoms {a : Atomspace} {i : ℕ} (s c : ℚ) {x : Atom}
    (hx : opencog_get_atom a i = some x) :
    opencog_set_truth_value a i s c =
      { a with atoms := modify_atom a.atoms i (fun atm =>
        { atm with truth_value :=
          { strength := clamp01 s
            confidence := clamp01 c
            count := 1 } }) } := by
  unfold opencog_set_truth_value
  rw [hx]

theorem add_link_success {a : Atomspace} (ty : AtomType) {outgoing : List ℕ}
    (hne : outgoing.length ≠ 0)
    (hcap : a.atoms.length < a.atom_capacity)
    (hres : outgoing.any (fun t => (opencog_get_atom a t).isNone) = false) :
    opencog_add_link a ty outgoing =
      ({ a with
          atoms := add_incoming_links a.atoms a.next_atom_id outgoing ++
            [link_record a ty outgoing]
          next_atom_id := a.next_atom_id + 1 },
       a.next_atom_id) := by
  unfold opencog_add_link
  rw [if_neg (not_or.mpr ⟨hne, not_le.mpr hcap⟩)]
  rw [if_neg (by rw [hres]; exact Bool.false_ne_true)]
  rfl

/-! ## Claim theorems -/

/-- C1: if `outgoing` is non-empty and some id in it does not resolve to a
live atom, `opencog_add_link` returns the failure sentinel 0 and the
atomspace is completely unchanged: no atom is allocated, no id is
consumed, no incoming list is touched. -/
theorem add_link_notfound_unchanged (a : Atomspace) (ty : AtomType)
    (outgoing : List ℕ) (hne : outgoing ≠ [])
    (hbad : ∃ t ∈ outgoing, opencog_get_atom a t = none) :
    opencog_add_link a ty outgoing = (a, 0) := by
  unfold opencog_add_link
  by_cases h1 : outgoing.length = 0 ∨ a.atom_capacity ≤ a.atoms.length
  · rw [if_pos h1]
  · rw [if_neg h1]
    have h2 : (outgoing.any (fun t => (opencog_get_atom a t).isNone)) = true := by
      rw [List.any_eq_true]
      rcases hbad with ⟨t, ht, hnone⟩
      exact ⟨t, ht, by rw [hnone]; rfl⟩
    rw [if_pos h2]

/-- C5 (code-bug evidence): at the all-zero truth value — exactly the
default `opencog_get_truth_value` returns for an unresolvable id — the
denominator `c1 + c2 − c1·c2` of the PLN confidence combination is zero.
The source applies no clamp and no epsilon guard, so the C float computes
`0.0f/0.0f = NaN` there, outside `[0,1]`; the total division of `ℚ` in
this model yields 0 instead of NaN, which is why the range property is
not provable of the program itself. -/
theorem pln_conf_denominator_zero :
    (opencog_get_truth_value opencog_atomspace_init 1).confidence +
        (opencog_get_truth_value opencog_atomspace_init 1).confidence -
        (opencog_get_truth_value opencog_atomspace_init 1).confidence *
          (opencog_get_truth_value opencog_atomspace_init 1).confidence
      = 0 ∧
    (opencog_pln_and (opencog_get_truth_value opencog_atomspace_init 1)
        (opencog_get_truth_value opencog_atomspace_init 1)).confidence
      = 0 ∧
    (opencog_pln_or (opencog_get_truth_value opencog_atomspace_init 1)
        (opencog_get_truth_value opencog_atomspace_init 1)).confidence
      = 0 := by
  refine ⟨?_, ?_, ?_⟩ <;>
    norm_num [opencog_get_truth_value, opencog_get_atom, find_live,
      opencog_atomspace_init, opencog_pln_and, opencog_pln_or]


/-- C8 counterexample: on the freshly initialized table, `opencog_add_node`
with an empty name does not fail: it returns id 1 and the table gains an
atom (the C code rejects only a NULL name pointer, not an empty string). -/
theorem add_node_empty_name_cex :
    (opencog_add_node opencog_atomspace_init AtomType.concept "").2 = 1 ∧
    (opencog_add_node opencog_atomspace_init
      AtomType.concept "").1.atoms.length = 1 := by
  constructor
  · rfl
  · rfl

/-- C8 amended: for every table below capacity, `opencog_add_node` with an
empty name succeeds: it returns the current `next_atom_id` and appends
exactly one atom. -/
theorem add_node_empty_name_succeeds (a : Atomspace) (ty : AtomType)
    (hcap : a.atoms.length < a.atom_capacity) :
    (opencog_add_node a ty "").2 = a.next_atom_id ∧
    (opencog_add_node a ty "").1.atoms.length = a.atoms.length + 1 := by
  unfold opencog_add_node
  rw [if_neg (not_le.mpr hcap)]
  exact ⟨rfl, by simp⟩

/-- C9: on a live atom, `opencog_set_truth_value` stores the clamped
strength and confidence and resets the count field to 1, discarding the
previous count. -/
theorem set_truth_value_resets_count (a : Atomspace) (atom_id : ℕ)
    (s c : ℚ) (x : Atom) (hx : opencog_get_atom a atom_id = some x) :
    opencog_get_truth_value (opencog_set_truth_value a atom_id s c)
      atom_id =
      { strength := clamp01 s, confidence := clamp01 c, count := 1 } := by
  have h0 : atom_id ≠ 0 := by
    intro h
    rw [h] at hx
    simp [opencog_get_atom] at hx
  have hfind : find_live a.atoms atom_id = some x := by
    unfold opencog_get_atom at hx
    rw [if_neg h0] at hx
    exact hx
  rw [set_truth_value_atoms s c hx]
  unfold opencog_get_truth_value opencog_get_atom
  dsimp only
  rw [if_neg h0]
  rw [find_live_modify_eq (truth_step_id s c) (truth_step_del s c) h0 hfind]

/-- C3 counterexample: on the freshly initialized (empty) table, where
both premise links are missing, `opencog_infer_inheritance` returns false
but does NOT increment the total-inferences counter (the counter stays at
0, not 1 as the claim requires). -/
theorem infer_missing_premise_cex :
    (opencog_infer_inheritance opencog_atomspace_init 1 2 3).2 = false ∧
    (opencog_infer_inheritance opencog_atomspace_init
        1 2 3).1.total_inferences ≠
      opencog_atomspace_init.total_inferences + 1 := by
  constructor
  · rfl
  · decide

/-- The ab-premise pattern of the scan inside `opencog_infer_inheritance`:
a live Inheritance link whose outgoing sequence has length at least 2 and
begins with `[x, y]`. -/
abbrev premise_link (x y : ℕ) (atm : Atom) : Prop :=
  atm.is_deleted = false ∧ atm.type = AtomType.inheritance ∧
    2 ≤ atm.outgoing.length ∧
    atm.outgoing.get? 0 = some x ∧ atm.outgoing.get? 1 = some y

theorem scan_foldl_fst (atoms : List Atom) (ca cb cc : ℕ) (acc : ℕ × ℕ)
    (h : ∀ atm ∈ atoms, ¬ premise_link ca cb atm) :
    (atoms.foldl (scan_step ca cb cc) acc).1 = acc.1 := by
  induction atoms generalizing acc with
  | nil => rfl
  | cons atm rest ih =>
    rw [List.foldl_cons]
    rw [ih _ (fun y hy => h y (List.mem_cons_of_mem _ hy))]
    unfold scan_step
    by_cases hout : atm.is_deleted = false ∧ atm.type = AtomType.inheritance ∧
        2 ≤ atm.outgoing.length
    · rw [if_pos hout]
      dsimp only
      by_cases hab : atm.outgoing.get? 0 = some ca ∧
          atm.outgoing.get? 1 = some cb
      · exact absurd ⟨hout.1, hout.2.1, hout.2.2, hab.1, hab.2⟩
          (h atm (List.mem_cons_self _ _))
      · rw [if_neg hab]
    · rw [if_neg hout]

theorem scan_foldl_snd (atoms : List Atom) (ca cb cc : ℕ) (acc : ℕ × ℕ)
    (h : ∀ atm ∈ atoms, ¬ premise_link cb cc atm) :
    (atoms.foldl (scan_step ca cb cc) acc).2 = acc.2 := by
  induction atoms generalizing acc with
  | nil => rfl
  | cons atm rest ih =>
    rw [List.foldl_cons]
    rw [ih _ (fun y hy => h y (List.mem_cons_of_mem _ hy))]
    unfold scan_step
    by_cases hout : atm.is_deleted = false ∧ atm.type = AtomType.inheritance ∧
        2 ≤ atm.outgoing.length
    · rw [if_pos hout]
      dsimp only
      by_cases hbc : atm.outgoing.get? 0 = some cb ∧
          atm.outgoing.get? 1 = some cc
      · exact absurd ⟨hout.1, hout.2.1, hout.2.2, hbc.1, hbc.2⟩
          (h atm (List.mem_cons_self _ _))
      · rw [if_neg hbc]
    · rw [if_neg hout]

/-- C3 amended: when the table holds no live Inheritance link whose first
two outgoing entries are `[a, b]`, or none whose first two are `[b, c]`,
`opencog_infer_inheritance` returns false and leaves the whole atomspace
unchanged — in particular the total-inferences counter is NOT
incremented (the counter is touched only after both premises are found). -/
theorem infer_missing_premise_unchanged (a : Atomspace) (ca cb cc : ℕ)
    (h : (∀ atm ∈ a.atoms, ¬ premise_link ca cb atm) ∨
         (∀ atm ∈ a.atoms, ¬ premise_link cb cc atm)) :
    opencog_infer_inheritance a ca cb cc = (a, false) := by
  have hz : (scan_premises a.atoms ca cb cc).1 = 0 ∨
      (scan_premises a.atoms ca cb cc).2 = 0 := by
    rcases h with h | h
    · exact Or.inl (scan_foldl_fst a.atoms ca cb cc (0, 0) h)
    · exact Or.inr (scan_foldl_snd a.atoms ca cb cc (0, 0) h)
  unfold opencog_infer_inheritance
  rw [if_pos hz]


/-- C7: one decay tick on a table with decay rate `0.95` and attention
threshold `0.1`, applied to a live atom with `sti = 0.5` and prior lti in
`[0,1]`: the atom's sti and lti are multiplied by `0.95`, and since the
post-decay sti `0.475` exceeds the threshold, 10% of it moves from sti to
lti, leaving `sti = 0.4275` and `lti = 0.95·lti₀ + 0.0475` (an increase
of exactly `0.0475` over the post-decay lti). -/
theorem decay_tick_sti_lti (a : Atomspace) (i : ℕ) (atm : Atom)
    (hrate : a.attention_decay_rate = 19/20)
    (hthr : a.attention_threshold = 1/10)
    (hget : a.atoms.get? i = some atm)
    (hlive : atm.is_deleted = false)
    (hsti : atm.attention_value.sti = 1/2)
    (hlti0 : 0 ≤ atm.attention_value.lti)
    (hlti1 : atm.attention_value.lti ≤ 1) :
    ∃ atm2,
      (opencog_update_attention_values a).atoms.get? i = some atm2 ∧
      atm2.attention_value.sti = 4275/10000 ∧
      atm2.attention_value.lti =
        19/20 * atm.attention_value.lti + 475/10000 := by
  refine ⟨decay_atom a.attention_decay_rate a.attention_threshold atm,
    ?_, ?_, ?_⟩
  · unfold opencog_update_attention_values
    dsimp only
    rw [List.get?_map, hget]
    rfl
  · unfold decay_atom
    rw [if_neg (by rw [hlive]; exact Bool.false_ne_true)]
    dsimp only
    rw [hsti, hrate, hthr]
    rw [if_pos (by norm_num)]
    unfold clampSTI rmin rmax
    norm_num
  · unfold decay_atom
    rw [if_neg (by rw [hlive]; exact Bool.false_ne_true)]
    dsimp only
    rw [hsti, hrate, hthr]
    rw [if_pos (by norm_num)]
    unfold clamp01 rmin rmax
    split_ifs with h1 h2 h2 <;> linarith

/-- C10: `opencog_spread_attention` from a live source atom that does not
appear in its own outgoing or incoming lists leaves the source atom's
record — in particular its sti, lti and vlti — completely unchanged: the
amount is injected into the neighbours, not transferred out of the
source. -/
theorem spread_preserves_source (a : Atomspace) (sid : ℕ) (amount : ℚ)
    (src : Atom) (hsrc : opencog_get_atom a sid = some src)
    (hout : sid ∉ src.outgoing) (hin : sid ∉ src.incoming) :
    opencog_get_atom (opencog_spread_attention a sid amount) sid =
      some src := by
  have h0 : sid ≠ 0 := by
    intro h
    rw [h] at hsrc
    simp [opencog_get_atom] at hsrc
  have hfind : find_live a.atoms sid = some src := by
    unfold opencog_get_atom at hsrc
    rw [if_neg h0] at hsrc
    exact hsrc
  unfold opencog_spread_attention
  rw [hsrc]
  unfold opencog_get_atom
  dsimp only
  rw [if_neg h0]
  by_cases hol : 0 < src.outgoing.length
  · rw [if_pos hol]
    by_cases hil : 0 < src.incoming.length
    · rw [if_pos hil, find_live_spread_ne hin, find_live_spread_ne hout]
      exact hfind
    · rw [if_neg hil, find_live_spread_ne hout]
      exact hfind
  · rw [if_neg hol]
    by_cases hil : 0 < src.incoming.length
    · rw [if_pos hil, find_live_spread_ne hin]
      exact hfind
    · rw [if_neg hil]
      exact hfind


/-- C2: after a successful `opencog_add_link` with outgoing `[A, B]` on a
table whose ids are all below `next_atom_id`, the returned link id `L`
satisfies: `opencog_query_outgoing L = [A, B]` (in order), and `L` is a
member of both `opencog_query_incoming A` and `opencog_query_incoming B`
— the outgoing/incoming bidirectional duality. -/
theorem add_link_duality (a : Atomspace) (ty : AtomType) (A B : ℕ)
    (hA : (opencog_get_atom a A).isSome = true)
    (hB : (opencog_get_atom a B).isSome = true)
    (hcap : a.atoms.length < a.atom_capacity)
    (hfresh : ∀ atm ∈ a.atoms, atm.atom_id < a.next_atom_id) :
    (opencog_add_link a ty [A, B]).2 = a.next_atom_id ∧
    opencog_query_outgoing (opencog_add_link a ty [A, B]).1
      (opencog_add_link a ty [A, B]).2 = [A, B] ∧
    (opencog_add_link a ty [A, B]).2 ∈
      opencog_query_incoming (opencog_add_link a ty [A, B]).1 A ∧
    (opencog_add_link a ty [A, B]).2 ∈
      opencog_query_incoming (opencog_add_link a ty [A, B]).1 B := by
  obtain ⟨x, hx⟩ := Option.isSome_iff_exists.mp hA
  obtain ⟨y, hy⟩ := Option.isSome_iff_exists.mp hB
  have hA0 : A ≠ 0 := by
    intro h
    rw [h] at hx
    simp [opencog_get_atom] at hx
  have hB0 : B ≠ 0 := by
    intro h
    rw [h] at hy
    simp [opencog_get_atom] at hy
  have hfx : find_live a.atoms A = some x := by
    unfold opencog_get_atom at hx
    rw [if_neg hA0] at hx
    exact hx
  have hfy : find_live a.atoms B = some y := by
    unfold opencog_get_atom at hy
    rw [if_neg hB0] at hy
    exact hy
  have hAlt : A < a.next_atom_id := by
    have hm := find_live_mem hfx
    have := hfresh x hm.1
    rw [hm.2.1] at this
    exact this
  have hL0 : a.next_atom_id ≠ 0 := by omega
  have hres : ([A, B].any fun t => (opencog_get_atom a t).isNone) = false := by
    simp only [List.any_cons, List.any_nil, Bool.or_false]
    rw [hx, hy]
    rfl
  have hnone : find_live
      (add_incoming_links a.atoms a.next_atom_id [A, B])
      a.next_atom_id = none := by
    apply find_live_eq_none
    intro z hz
    rcases mem_add_incoming_links hz with ⟨w, hw, hid, _⟩
    rw [hid]
    exact Nat.ne_of_lt (hfresh w hw)
  rw [add_link_success ty (by simp) hcap hres]
  dsimp only
  refine ⟨rfl, ?_, ?_, ?_⟩
  · unfold opencog_query_outgoing opencog_get_atom
    dsimp only
    rw [if_neg hL0, find_live_append_of_none hnone, find_live,
      if_pos ⟨rfl, rfl⟩]
    rfl
  · unfold opencog_query_incoming opencog_get_atom
    dsimp only
    rw [if_neg hA0]
    obtain ⟨z, hz1, hz2⟩ := @find_live_add_incoming_adds [A, B] a.atoms
      a.next_atom_id A x (by simp) hA0 hfx
    rw [find_live_append_of_some hz1]
    exact hz2
  · unfold opencog_query_incoming opencog_get_atom
    dsimp only
    rw [if_neg hB0]
    obtain ⟨z, hz1, hz2⟩ := @find_live_add_incoming_adds [A, B] a.atoms
      a.next_atom_id B y (by simp) hB0 hfy
    rw [find_live_append_of_some hz1]
    exact hz2


/-- C4: when the premise scan finds an `[a,b]` Inheritance link with
truth (strength 0.9, confidence 0.8) and a `[b,c]` Inheritance link with
truth (strength 0.85, confidence 0.9), and `a` and `c` resolve to live
atoms in a table below capacity with fresh `next_atom_id`, then
`opencog_infer_inheritance a b c` returns true and creates a new
Inheritance link with outgoing `[a, c]` whose truth strength is exactly
`0.765 = 0.9 · 0.85` (hence within `1e-4` of `0.765`). -/
theorem infer_inheritance_deduction (a : Atomspace) (ca cb cc : ℕ)
    (hs1 : (scan_premises a.atoms ca cb cc).1 ≠ 0)
    (hs2 : (scan_premises a.atoms ca cb cc).2 ≠ 0)
    (htab_s : (opencog_get_truth_value a
      (scan_premises a.atoms ca cb cc).1).strength = 9/10)
    (htab_c : (opencog_get_truth_value a
      (scan_premises a.atoms ca cb cc).1).confidence = 4/5)
    (htbc_s : (opencog_get_truth_value a
      (scan_premises a.atoms ca cb cc).2).strength = 17/20)
    (htbc_c : (opencog_get_truth_value a
      (scan_premises a.atoms ca cb cc).2).confidence = 9/10)
    (hca : (opencog_get_atom a ca).isSome = true)
    (hcc : (opencog_get_atom a cc).isSome = true)
    (hcap : a.atoms.length < a.atom_capacity)
    (hfresh : ∀ atm ∈ a.atoms, atm.atom_id < a.next_atom_id) :
    (opencog_infer_inheritance a ca cb cc).2 = true ∧
    ∃ lk, opencog_get_atom (opencog_infer_inheritance a ca cb cc).1
        a.next_atom_id = some lk ∧
      lk.type = AtomType.inheritance ∧
      lk.outgoing = [ca, cc] ∧
      lk.truth_value.strength = 765/1000 ∧
      |lk.truth_value.strength - 765/1000| ≤ 1/10000 := by
  obtain ⟨x, hx⟩ := Option.isSome_iff_exists.mp hca
  obtain ⟨y, hy⟩ := Option.isSome_iff_exists.mp hcc
  have hca0 : ca ≠ 0 := by
    intro h
    rw [h] at hx
    simp [opencog_get_atom] at hx
  have hcc0 : cc ≠ 0 := by
    intro h
    rw [h] at hy
    simp [opencog_get_atom] at hy
  have hfx : find_live a.atoms ca = some x := by
    unfold opencog_get_atom at hx
    rw [if_neg hca0] at hx
    exact hx
  have hAlt : ca < a.next_atom_id := by
    have hm := find_live_mem hfx
    have := hfresh x hm.1
    rw [hm.2.1] at this
    exact this
  have hL0 : a.next_atom_id ≠ 0 := by omega
  have hres : ([ca, cc].any fun t => (opencog_get_atom a t).isNone) = false := by
    simp only [List.any_cons, List.any_nil, Bool.or_false]
    rw [hx, hy]
    rfl
  have hnone : find_live
      (add_incoming_links a.atoms a.next_atom_id [ca, cc])
      a.next_atom_id = none := by
    apply find_live_eq_none
    intro z hz
    rcases mem_add_incoming_links hz with ⟨w, hw, hid, _⟩
    rw [hid]
    exact Nat.ne_of_lt (hfresh w hw)
  have hsucc := @add_link_success a AtomType.inheritance [ca, cc]
    (by simp) hcap hres
  have hlinkfind : find_live
      (add_incoming_links a.atoms a.next_atom_id [ca, cc] ++
        [link_record a AtomType.inheritance [ca, cc]]) a.next_atom_id =
      some (link_record a AtomType.inheritance [ca, cc]) := by
    rw [find_live_append_of_none hnone, find_live, if_pos ⟨rfl, rfl⟩]
  have hget : opencog_get_atom (opencog_add_link a
      AtomType.inheritance [ca, cc]).1 a.next_atom_id =
      some (link_record a AtomType.inheritance [ca, cc]) := by
    rw [hsucc]
    unfold opencog_get_atom
    dsimp only
    rw [if_neg hL0]
    exact hlinkfind
  have h2 : (opencog_add_link a AtomType.inheritance [ca, cc]).2 =
      a.next_atom_id := by
    rw [hsucc]
  have h3 : (opencog_add_link a AtomType.inheritance [ca, cc]).1.atoms =
      add_incoming_links a.atoms a.next_atom_id [ca, cc] ++
        [link_record a AtomType.inheritance [ca, cc]] := by
    rw [hsucc]
  unfold opencog_infer_inheritance
  rw [if_neg (not_or.mpr ⟨hs1, hs2⟩)]
  dsimp only
  rw [htab_s, htab_c, htbc_s, htbc_c, h2]
  rw [set_truth_value_atoms (9/10 * (17/20))
    (4/5 * (9/10) / (4/5 + 9/10 - 4/5 * (9/10))) hget]
  rw [if_pos hL0]
  refine ⟨rfl, ?_⟩
  dsimp only
  rw [h3]
  refine ⟨{ link_record a AtomType.inheritance [ca, cc] with
    truth_value :=
      { strength := clamp01 (9/10 * (17/20))
        confidence :=
          clamp01 (4/5 * (9/10) / (4/5 + 9/10 - 4/5 * (9/10)))
        count := 1 } }, ?_, ?_, ?_, ?_, ?_⟩
  · unfold opencog_get_atom
    dsimp only
    rw [if_neg hL0, modify_atom, if_neg hL0]
    exact find_live_update_eq (truth_step_id _ _) (truth_step_del _ _)
      hlinkfind
  · rfl
  · rfl
  · show clamp01 (9/10 * (17/20)) = 765/1000
    unfold clamp01 rmin rmax
    norm_num
  · show |clamp01 (9/10 * (17/20)) - 765/1000| ≤ 1/10000
    unfold clamp01 rmin rmax
    norm_num


/-! ## Concrete tables and truth values used by the witnesses -/

/-- A concept node as `opencog_add_node` would produce it (id 1). -/
def nodeA : Atom where
  atom_id := 1
  name := "A"
  type := AtomType.concept
  truth_value := { strength := 4/5, confidence := 9/10, count := 1 }
  attention_value := { sti := 0, lti := 0, vlti := 0 }
  outgoing := []
  incoming := []
  is_deleted := false

/-- A concept node as `opencog_add_node` would produce it (id 2). -/
def nodeB : Atom where
  atom_id := 2
  name := "B"
  type := AtomType.concept
  truth_value := { strength := 4/5, confidence := 9/10, count := 1 }
  attention_value := { sti := 0, lti := 0, vlti := 0 }
  outgoing := []
  incoming := []
  is_deleted := false

/-- A table holding the two nodes above, ids consumed up to 2. -/
def twoNodeSpace : Atomspace where
  atoms := [nodeA, nodeB]
  atom_capacity := 2048
  next_atom_id := 3
  attention_decay_rate := 19/20
  attention_threshold := 1/10
  importance_diffusion_rate := 1/10
  default_strength := 4/5
  default_confidence := 9/10
  total_inferences := 0
  successful_inferences := 0
  reasoning_accuracy := 0

/-- Witness for C1: on the two-node table, `add_link` with outgoing `[7]`
(id 7 unresolvable) fails with sentinel 0 and leaves the table unchanged. -/
theorem add_link_notfound_unchanged_witness :
    (([7] : List ℕ) ≠ [] ∧ ∃ t ∈ ([7] : List ℕ),
      opencog_get_atom twoNodeSpace t = none) ∧
    opencog_add_link twoNodeSpace AtomType.inheritance [7] =
      (twoNodeSpace, 0) :=
  ⟨⟨by decide, ⟨7, by decide, rfl⟩⟩,
    add_link_notfound_unchanged twoNodeSpace AtomType.inheritance [7]
      (by decide) ⟨7, by decide, rfl⟩⟩

/-- Witness for C2: linking `[1, 2]` on the two-node table. -/
theorem add_link_duality_witness :
    ((opencog_get_atom twoNodeSpace 1).isSome = true ∧
     (opencog_get_atom twoNodeSpace 2).isSome = true ∧
     twoNodeSpace.atoms.length < twoNodeSpace.atom_capacity ∧
     (∀ atm ∈ twoNodeSpace.atoms,
       atm.atom_id < twoNodeSpace.next_atom_id)) ∧
    ((opencog_add_link twoNodeSpace AtomType.inheritance [1, 2]).2 =
        twoNodeSpace.next_atom_id ∧
     opencog_query_outgoing
        (opencog_add_link twoNodeSpace AtomType.inheritance [1, 2]).1
        (opencog_add_link twoNodeSpace AtomType.inheritance [1, 2]).2 =
        [1, 2] ∧
     (opencog_add_link twoNodeSpace AtomType.inheritance [1, 2]).2 ∈
        opencog_query_incoming
          (opencog_add_link twoNodeSpace AtomType.inheritance [1, 2]).1 1 ∧
     (opencog_add_link twoNodeSpace AtomType.inheritance [1, 2]).2 ∈
        opencog_query_incoming
          (opencog_add_link twoNodeSpace AtomType.inheritance [1, 2]).1 2) :=
  ⟨⟨rfl, rfl, by decide, by decide⟩,
    add_link_duality twoNodeSpace AtomType.inheritance 1 2 rfl rfl
      (by decide) (by decide)⟩

/-- Witness for C3 (amended): on the two-node table (no Inheritance links
at all), `infer_inheritance` returns false with the state unchanged. -/
theorem infer_missing_premise_unchanged_witness :
    (∀ atm ∈ twoNodeSpace.atoms, ¬ premise_link 1 2 atm) ∧
    opencog_infer_inheritance twoNodeSpace 1 2 3 = (twoNodeSpace, false) :=
  ⟨by decide,
    infer_missing_premise_unchanged twoNodeSpace 1 2 3 (Or.inl (by decide))⟩

/-- Concept node 1 of the inference witness table (incoming from link 4). -/
def inferNodeA : Atom where
  atom_id := 1
  name := "A"
  type := AtomType.concept
  truth_value := { strength := 4/5, confidence := 9/10, count := 1 }
  attention_value := { sti := 0, lti := 0, vlti := 0 }
  outgoing := []
  incoming := [4]
  is_deleted := false

/-- Concept node 2 of the inference witness table. -/
def inferNodeB : Atom where
  atom_id := 2
  name := "B"
  type := AtomType.concept
  truth_value := { strength := 4/5, confidence := 9/10, count := 1 }
  attention_value := { sti := 0, lti := 0, vlti := 0 }
  outgoing := []
  incoming := [4, 5]
  is_deleted := false

/-- Concept node 3 of the inference witness table. -/
def inferNodeC : Atom where
  atom_id := 3
  name := "C"
  type := AtomType.concept
  truth_value := { strength := 4/5, confidence := 9/10, count := 1 }
  attention_value := { sti := 0, lti := 0, vlti := 0 }
  outgoing := []
  incoming := [5]
  is_deleted := false

/-- The `[1,2]` Inheritance premise link with truth (0.9, 0.8). -/
def inferLinkAB : Atom where
  atom_id := 4
  name := "Link_4"
  type := AtomType.inheritance
  truth_value := { strength := 9/10, confidence := 4/5, count := 1 }
  attention_value := { sti := 0, lti := 0, vlti := 0 }
  outgoing := [1, 2]
  incoming := []
  is_deleted := false

/-- The `[2,3]` Inheritance premise link with truth (0.85, 0.9). -/
def inferLinkBC : Atom where
  atom_id := 5
  name := "Link_5"
  type := AtomType.inheritance
  truth_value := { strength := 17/20, confidence := 9/10, count := 1 }
  attention_value := { sti := 0, lti := 0, vlti := 0 }
  outgoing := [2, 3]
  incoming := []
  is_deleted := false

/-- Table with concepts 1,2,3 and premise links 1→2 (0.9, 0.8) and
2→3 (0.85, 0.9). -/
def inferSpace : Atomspace where
  atoms := [inferNodeA, inferNodeB, inferNodeC, inferLinkAB, inferLinkBC]
  atom_capacity := 2048
  next_atom_id := 6
  attention_decay_rate := 19/20
  attention_threshold := 1/10
  importance_diffusion_rate := 1/10
  default_strength := 4/5
  default_confidence := 9/10
  total_inferences := 0
  successful_inferences := 0
  reasoning_accuracy := 0

/-- Witness for C4: inference over the concrete premise table creates the
`[1, 3]` Inheritance link with strength exactly 0.765. -/
theorem infer_inheritance_deduction_witness :
    ((scan_premises inferSpace.atoms 1 2 3).1 ≠ 0 ∧
     (scan_premises inferSpace.atoms 1 2 3).2 ≠ 0 ∧
     (opencog_get_truth_value inferSpace
       (scan_premises inferSpace.atoms 1 2 3).1).strength = 9/10 ∧
     (opencog_get_truth_value inferSpace
       (scan_premises inferSpace.atoms 1 2 3).1).confidence = 4/5 ∧
     (opencog_get_truth_value inferSpace
       (scan_premises inferSpace.atoms 1 2 3).2).strength = 17/20 ∧
     (opencog_get_truth_value inferSpace
       (scan_premises inferSpace.atoms 1 2 3).2).confidence = 9/10 ∧
     (opencog_get_atom inferSpace 1).isSome = true ∧
     (opencog_get_atom inferSpace 3).isSome = true ∧
     inferSpace.atoms.length < inferSpace.atom_capacity ∧
     (∀ atm ∈ inferSpace.atoms, atm.atom_id < inferSpace.next_atom_id)) ∧
    ((opencog_infer_inheritance inferSpace 1 2 3).2 = true ∧
     ∃ lk, opencog_get_atom (opencog_infer_inheritance inferSpace 1 2 3).1
         inferSpace.next_atom_id = some lk ∧
       lk.type = AtomType.inheritance ∧
       lk.outgoing = [1, 3] ∧
       lk.truth_value.strength = 765/1000 ∧
       |lk.truth_value.strength - 765/1000| ≤ 1/10000) :=
  ⟨⟨by decide, by decide, rfl, rfl, rfl, rfl, rfl, rfl, by decide,
      by decide⟩,
    infer_inheritance_deduction inferSpace 1 2 3 (by decide) (by decide)
      rfl rfl rfl rfl rfl rfl (by decide) (by decide)⟩

/-- A live atom with sti 0.5 and lti 0.3 for the decay witness. -/
def decayNode : Atom where
  atom_id := 1
  name := "D"
  type := AtomType.concept
  truth_value := { strength := 4/5, confidence := 9/10, count := 1 }
  attention_value := { sti := 1/2, lti := 3/10, vlti := 0 }
  outgoing := []
  incoming := []
  is_deleted := false

/-- One-atom table with the ECAN default parameters. -/
def decaySpace : Atomspace where
  atoms := [decayNode]
  atom_capacity := 2048
  next_atom_id := 2
  attention_decay_rate := 19/20
  attention_threshold := 1/10
  importance_diffusion_rate := 1/10
  default_strength := 4/5
  default_confidence := 9/10
  total_inferences := 0
  successful_inferences := 0
  reasoning_accuracy := 0

/-- Witness for C7 on the one-atom table. -/
theorem decay_tick_sti_lti_witness :
    (decaySpace.attention_decay_rate = 19/20 ∧
     decaySpace.attention_threshold = 1/10 ∧
     decaySpace.atoms.get? 0 = some decayNode ∧
     decayNode.is_deleted = false ∧
     decayNode.attention_value.sti = 1/2 ∧
     0 ≤ decayNode.attention_value.lti ∧
     decayNode.attention_value.lti ≤ 1) ∧
    (∃ atm2, (opencog_update_attention_values decaySpace).atoms.get? 0 =
        some atm2 ∧
      atm2.attention_value.sti = 4275/10000 ∧
      atm2.attention_value.lti =
        19/20 * decayNode.attention_value.lti + 475/10000) :=
  ⟨⟨rfl, rfl, rfl, rfl, rfl, by norm_num [decayNode],
      by norm_num [decayNode]⟩,
    decay_tick_sti_lti decaySpace 0 decayNode rfl rfl rfl rfl rfl
      (by norm_num [decayNode]) (by norm_num [decayNode])⟩

/-- Witness for C8 (amended) on the freshly initialized table. -/
theorem add_node_empty_name_succeeds_witness :
    opencog_atomspace_init.atoms.length <
      opencog_atomspace_init.atom_capacity ∧
    ((opencog_add_node opencog_atomspace_init AtomType.concept "").2 =
        opencog_atomspace_init.next_atom_id ∧
     (opencog_add_node opencog_atomspace_init
        AtomType.concept "").1.atoms.length =
        opencog_atomspace_init.atoms.length + 1) :=
  ⟨by decide,
    add_node_empty_name_succeeds opencog_atomspace_init AtomType.concept
      (by decide)⟩

/-- Witness for C9: setting truth (1.5, −0.2) on node 1 of the two-node
table stores the clamped values with count reset to 1. -/
theorem set_truth_value_resets_count_witness :
    opencog_get_atom twoNodeSpace 1 = some nodeA ∧
    opencog_get_truth_value
        (opencog_set_truth_value twoNodeSpace 1 (3/2) (-1/5)) 1 =
      { strength := clamp01 (3/2), confidence := clamp01 (-1/5),
        count := 1 } :=
  ⟨rfl,
    set_truth_value_resets_count twoNodeSpace 1 (3/2) (-1/5) nodeA rfl⟩

/-- Node 1 of the spread witness table (incoming from link 3). -/
def spreadNode1 : Atom where
  atom_id := 1
  name := "A"
  type := AtomType.concept
  truth_value := { strength := 4/5, confidence := 9/10, count := 1 }
  attention_value := { sti := 0, lti := 0, vlti := 0 }
  outgoing := []
  incoming := [3]
  is_deleted := false

/-- Node 2 of the spread witness table. -/
def spreadNode2 : Atom where
  atom_id := 2
  name := "B"
  type := AtomType.concept
  truth_value := { strength := 4/5, confidence := 9/10, count := 1 }
  attention_value := { sti := 0, lti := 0, vlti := 0 }
  outgoing := []
  incoming := [3]
  is_deleted := false

/-- The spreading source: link 3 with outgoing `[1, 2]`. -/
def spreadLink : Atom where
  atom_id := 3
  name := "Link_3"
  type := AtomType.inheritance
  truth_value := { strength := 4/5, confidence := 9/10, count := 1 }
  attention_value := { sti := 1/2, lti := 0, vlti := 0 }
  outgoing := [1, 2]
  incoming := []
  is_deleted := false

/-- Table for the spread witness. -/
def spreadSpace : Atomspace where
  atoms := [spreadNode1, spreadNode2, spreadLink]
  atom_capacity := 2048
  next_atom_id := 4
  attention_decay_rate := 19/20
  attention_threshold := 1/10
  importance_diffusion_rate := 1/10
  default_strength := 4/5
  default_confidence := 9/10
  total_inferences := 0
  successful_inferences := 0
  reasoning_accuracy := 0

/-- Witness for C10: spreading 0.5 from link 3 leaves link 3 unchanged. -/
theorem spread_preserves_source_witness :
    (opencog_get_atom spreadSpace 3 = some spreadLink ∧
     3 ∉ spreadLink.outgoing ∧ 3 ∉ spreadLink.incoming) ∧
    opencog_get_atom (opencog_spread_attention spreadSpace 3 (1/2)) 3 =
      some spreadLink :=
  ⟨⟨rfl, by decide, by decide⟩,
    spread_preserves_source spreadSpace 3 (1/2) spreadLink rfl
      (by decide) (by decide)⟩

end Coggml
